import Mathlib

/-!
Verification of the expression (term) representation exercised by
`src/tests/kernel/expr.cpp`: flat-spine applications, structural
equality with cached hashes, identity (`eqp`) vs structural (`==`)
equality, and the three depth-traversal strategies.

The expression data type, smart constructors, accessors, equality and
hash live in `expr.h` / `expr.cpp` of the kernel, which is not part of
the sources here; they are modelled from the specification (§3, §4.1,
§4.2, §7).  The functions `depth1`, `depth2`, `depth3` and `mk_dag`
are translated directly from the test driver.
-/

namespace KernelExpr

/-- Modelled from the spec (§7): the error taxonomy of the missing
`expr.h` construction/accessor API. -/
inductive ExprError where
  | invalidArity
  | indexOutOfRange
  | wrongKind
deriving DecidableEq, Repr

/-- Modelled from the spec (§3): the tagged `Expr` value of the missing
`expr.h`.  `Var` carries a de Bruijn index, `Constant` a global name,
`Prop`/`Type` are atoms, `Numeral` carries an arbitrary-precision
integer (modelled as `Int`), `App` a function head plus argument list,
`Lambda`/`Pi` a binder name, domain and body. -/
inductive Expr where
  | var (idx : Nat)
  | const (nm : String)
  | prop
  | type
  | num (v : Int)
  | app (fn : Expr) (args : List Expr)
  | lam (nm : String) (dom body : Expr)
  | pi (nm : String) (dom body : Expr)

/-- Modelled from the spec (§4.1): the flattening core of `app` —
if the head is itself an `App`, merge the argument lists. -/
def appCore (es : List Expr) : Expr :=
  match es with
  | [] => Expr.prop
  | e0 :: rest =>
    match e0 with
    | Expr.app f xs => Expr.app f (xs ++ rest)
    | f => Expr.app f rest

/-- Modelled from the spec (§4.1): `app(exprs)` of the missing `expr.h`;
requires at least two elements, else `InvalidArity`; flattens when the
head is an `App`. -/
def app (es : List Expr) : Except ExprError Expr :=
  if es.length < 2 then Except.error ExprError.invalidArity
  else Except.ok (appCore es)

/-- Modelled from the spec (§4.1): `get_num_args(e)` — the length of the
flattened spine (function head counts as element 0). -/
def getNumArgs : Expr → Nat
  | Expr.app _ xs => xs.length + 1
  | _ => 0

/-- Modelled from the spec (§4.1): `get_arg(e, i)` — 0-indexed access
into the flattened spine (the function head is element 0); fails with
`IndexOutOfRange` past the spine, `WrongKind` off `App` nodes. -/
def getArg (e : Expr) (i : Nat) : Except ExprError Expr :=
  match e with
  | Expr.app f xs =>
    if h : i < xs.length + 1 then
      match i with
      | 0 => Except.ok f
      | j + 1 => Except.ok (xs.get ⟨j, by omega⟩)
    else Except.error ExprError.indexOutOfRange
  | _ => Except.error ExprError.wrongKind

/-- Modelled from the spec (§4.1): `app_args(e)` — the flattened spine
of an `App` node as a sequence, function head first. -/
def appArgs : Expr → List Expr
  | Expr.app f xs => f :: xs
  | _ => []

mutual
/-- Modelled from the spec (§4.2): structural equality (`==`) of the
missing `expr.h` — value semantics, binder names ignored. -/
def structEq : Expr → Expr → Bool
  | Expr.var i, Expr.var j => i == j
  | Expr.const n, Expr.const m => n == m
  | Expr.prop, Expr.prop => true
  | Expr.type, Expr.type => true
  | Expr.num a, Expr.num b => a == b
  | Expr.app f xs, Expr.app g ys => structEq f g && structEqList xs ys
  | Expr.lam _ d b, Expr.lam _ e c => structEq d e && structEq b c
  | Expr.pi _ d b, Expr.pi _ e c => structEq d e && structEq b c
  | _, _ => false

/-- Modelled from the spec (§4.2): elementwise structural equality of
argument lists (same length, recursive equality in order). -/
def structEqList : List Expr → List Expr → Bool
  | [], [] => true
  | x :: xs, y :: ys => structEq x y && structEqList xs ys
  | _, _ => false
end

/-- One mixing step of the structural hash. -/
def hmix (a b : Nat) : Nat := (a * 31 + b) % 2 ^ 64

mutual
/-- Modelled from the spec (§3): the cached structural hash — a pure
function of the kind tag, payload and children hashes; binder names
are excluded. -/
def hashE : Expr → Nat
  | Expr.var i => hmix 1 i
  | Expr.const n => hmix 2 n.length
  | Expr.prop => 3
  | Expr.type => 4
  | Expr.num v => hmix 5 v.natAbs
  | Expr.app f xs => hashList xs (hmix 6 (hashE f))
  | Expr.lam _ d b => hmix 7 (hmix (hashE d) (hashE b))
  | Expr.pi _ d b => hmix 8 (hmix (hashE d) (hashE b))

/-- Folds the structural hash over an argument list. -/
def hashList : List Expr → Nat → Nat
  | [], h => h
  | x :: xs, h => hashList xs (hmix h (hashE x))
end

mutual
/-- Executable size of an expression, used as the termination measure
of the traversal functions. -/
def esize : Expr → Nat
  | Expr.var _ => 1
  | Expr.const _ => 1
  | Expr.prop => 1
  | Expr.type => 1
  | Expr.num _ => 1
  | Expr.app f xs => 2 + esize f + esizeList xs
  | Expr.lam _ d b => 1 + esize d + esize b
  | Expr.pi _ d b => 1 + esize d + esize b

/-- Executable size of a list of expressions. -/
def esizeList : List Expr → Nat
  | [] => 0
  | x :: xs => 1 + esize x + esizeList xs
end

mutual
/-- `depth1` from `src/tests/kernel/expr.cpp`: direct recursion — atoms
have depth 1; an `App` takes the running maximum over its spine
(`app_args`, function head included) plus one; `Lambda`/`Pi` take the
maximum of domain and body plus one. -/
def depth1 : Expr → Nat
  | Expr.var _ => 1
  | Expr.const _ => 1
  | Expr.prop => 1
  | Expr.type => 1
  | Expr.num _ => 1
  | Expr.app f xs => depth1List (f :: xs) 0 + 1
  | Expr.lam _ d b => max (depth1 d) (depth1 b) + 1
  | Expr.pi _ d b => max (depth1 d) (depth1 b) + 1
termination_by e => esize e
decreasing_by all_goals (simp only [esize, esizeList]; omega)

/-- The `for (a : app_args(e)) m = max(m, depth1(a))` loop of `depth1`. -/
def depth1List : List Expr → Nat → Nat
  | [], m => m
  | a :: as, m => depth1List as (max m (depth1 a))
termination_by l _ => esizeList l
decreasing_by all_goals (simp only [esize, esizeList]; omega)
end

mutual
/-- `depth2` from `src/tests/kernel/expr.cpp`: the fold/accumulate
variant — `std::accumulate` over the spine with
`max(depth2(arg), m)`, starting from 0, plus one. -/
def depth2 : Expr → Nat
  | Expr.var _ => 1
  | Expr.const _ => 1
  | Expr.prop => 1
  | Expr.type => 1
  | Expr.num _ => 1
  | Expr.app f xs => depth2List (f :: xs) 0 + 1
  | Expr.lam _ d b => max (depth2 d) (depth2 b) + 1
  | Expr.pi _ d b => max (depth2 d) (depth2 b) + 1
termination_by e => esize e
decreasing_by all_goals (simp only [esize, esizeList]; omega)

/-- The `std::accumulate` fold of `depth2`. -/
def depth2List : List Expr → Nat → Nat
  | [], m => m
  | a :: as, m => depth2List as (max (depth2 a) m)
termination_by l _ => esizeList l
decreasing_by all_goals (simp only [esize, esizeList]; omega)
end

/-- Sum of the sizes of the expressions held in a worklist; the
termination measure of the `depth3` loop. -/
def todoSize : List (Expr × Nat) → Nat
  | [] => 0
  | (e, _) :: l => esize e + todoSize l

/-- The worklist loop of `depth3` from `src/tests/kernel/expr.cpp`:
pops the top `(node, context)` pair, sets `c := context + 1`; atoms
update the running maximum with `c`; `App` pushes each spine element
with context `c` (indices 0..num-1 pushed in order, so the last is on
top); `Lambda`/`Pi` push domain then body.  The list head is the top
of the stack. -/
def depth3Loop : List (Expr × Nat) → Nat → Nat
  | [], m => m
  | (e, n) :: todo, m =>
    let c := n + 1
    match e with
    | Expr.var _ => depth3Loop todo (max c m)
    | Expr.const _ => depth3Loop todo (max c m)
    | Expr.prop => depth3Loop todo (max c m)
    | Expr.type => depth3Loop todo (max c m)
    | Expr.num _ => depth3Loop todo (max c m)
    | Expr.app f xs =>
      depth3Loop ((((f :: xs).map (fun a => (a, c))).reverse) ++ todo) m
    | Expr.lam _ d b => depth3Loop ((b, c) :: (d, c) :: todo) m
    | Expr.pi _ d b => depth3Loop ((b, c) :: (d, c) :: todo) m
termination_by todo _ => todoSize todo
decreasing_by
  all_goals
    have hspine : ∀ (ls : List Expr) (c : Nat) (rest : List (Expr × Nat)),
        todoSize ((ls.map (fun a => (a, c))).reverse ++ rest) ≤
          esizeList ls + todoSize rest := by
      intro ls
      induction ls with
      | nil => intro c rest; simp [todoSize, esizeList]
      | cons a as ih =>
        intro c rest
        simp only [List.map_cons, List.reverse_cons, List.append_assoc,
          List.cons_append, List.nil_append, esizeList]
        have h2 := ih c ((a, c) :: rest)
        simp only [todoSize] at h2 ⊢
        omega
  all_goals simp only [todoSize, esize]
  all_goals try omega
  · have h2 := hspine (f :: xs) (n + 1) todo
    simp only [List.map_cons, todoSize, esizeList] at h2 ⊢
    omega

/-- `depth3` from `src/tests/kernel/expr.cpp`: the iterative worklist
depth computation, started with `(e, 0)` on the stack and `m = 0`. -/
def depth3 (e : Expr) : Nat := depth3Loop [(e, 0)] 0

/-- `mk_dag` from `src/tests/kernel/expr.cpp`: starting from `var(0)`,
apply `a := app({f, a, a})` with `f = constant("f")` the given number
of times.  The head `f` is never an `App`, so `app` succeeds and
returns `appCore`. -/
def mkDag : Nat → Expr
  | 0 => Expr.var 0
  | d + 1 => appCore [Expr.const "f", mkDag d, mkDag d]

/-- Modelled from the spec (§8): a right-nested chain of applications
of the given length — each level applies `constant("f")` to the
previous term, so the nesting depth is the chain length plus one. -/
def mkChain : Nat → Expr
  | 0 => Expr.var 0
  | n + 1 => appCore [Expr.const "f", mkChain n]

/-- Modelled from the spec (§3): whether an expression is an `App`
node (the kind test used by the flattening constructor). -/
def isApp : Expr → Bool
  | Expr.app _ _ => true
  | _ => false

/-- Maximum of `depth1` over a list of expressions; the closed form of
the spine folds of `depth1`/`depth2`. -/
def maxSpine : List Expr → Nat
  | [] => 0
  | a :: l => max (depth1 a) (maxSpine l)

/-- Maximum of `depth1 e + context` over a worklist; the closed form
of the `depth3` loop. -/
def maxDepths : List (Expr × Nat) → Nat
  | [] => 0
  | (e, n) :: l => max (depth1 e + n) (maxDepths l)

/-- Modelled from the spec (§3, §4.2): an expression node tagged with
its allocation identity.  `expr` values in `expr.h` are
reference-counted pointers to immutable nodes; the `id` field stands
for the node's address, so two nodes built by separate constructor
calls carry different `id`s even when structurally identical. -/
inductive PExpr where
  | var (id : Nat) (idx : Nat)
  | const (id : Nat) (nm : String)
  | prop (id : Nat)
  | type (id : Nat)
  | num (id : Nat) (v : Int)
  | app (id : Nat) (fn : PExpr) (args : List PExpr)
  | lam (id : Nat) (nm : String) (dom body : PExpr)
  | pi (id : Nat) (nm : String) (dom body : PExpr)

/-- The allocation identity (address) of a node. -/
def nodeId : PExpr → Nat
  | PExpr.var i _ => i
  | PExpr.const i _ => i
  | PExpr.prop i => i
  | PExpr.type i => i
  | PExpr.num i _ => i
  | PExpr.app i _ _ => i
  | PExpr.lam i _ _ _ => i
  | PExpr.pi i _ _ _ => i

/-- Modelled from the spec (§4.2): `eqp` — identity check; true iff the
two values are the exact same allocated node. -/
def eqp (a b : PExpr) : Bool := nodeId a == nodeId b

mutual
/-- Forgets allocation identities, yielding the structural value. -/
def erase : PExpr → Expr
  | PExpr.var _ i => Expr.var i
  | PExpr.const _ n => Expr.const n
  | PExpr.prop _ => Expr.prop
  | PExpr.type _ => Expr.type
  | PExpr.num _ v => Expr.num v
  | PExpr.app _ f xs => Expr.app (erase f) (eraseList xs)
  | PExpr.lam _ n d b => Expr.lam n (erase d) (erase b)
  | PExpr.pi _ n d b => Expr.pi n (erase d) (erase b)

/-- Forgets allocation identities elementwise. -/
def eraseList : List PExpr → List Expr
  | [] => []
  | x :: xs => erase x :: eraseList xs
end

/-- Modelled from the spec (§3): the cached structural hash of an
allocated node — a pure function of structure, independent of the
allocation identity. -/
def pHash (e : PExpr) : Nat := hashE (erase e)

mutual
/-- Modelled from the spec (§4.2): structural equality (`==`) on
allocated nodes — identity fast path, cached-hash rejection, then
per-kind recursive comparison with binder names ignored. -/
def pBeq (a b : PExpr) : Bool :=
  if eqp a b then true
  else if pHash a != pHash b then false
  else
    match a, b with
    | PExpr.var _ i, PExpr.var _ j => i == j
    | PExpr.const _ n, PExpr.const _ m => n == m
    | PExpr.prop _, PExpr.prop _ => true
    | PExpr.type _, PExpr.type _ => true
    | PExpr.num _ u, PExpr.num _ v => u == v
    | PExpr.app _ f xs, PExpr.app _ g ys => pBeq f g && pBeqList xs ys
    | PExpr.lam _ _ d b1, PExpr.lam _ _ e c => pBeq d e && pBeq b1 c
    | PExpr.pi _ _ d b1, PExpr.pi _ _ e c => pBeq d e && pBeq b1 c
    | _, _ => false

/-- Elementwise structural equality of allocated argument lists. -/
def pBeqList : List PExpr → List PExpr → Bool
  | [], [] => true
  | x :: xs, y :: ys => pBeq x y && pBeqList xs ys
  | _, _ => false
end

/-- Modelled from the spec (§4.1): `var(i)` — allocates a fresh
variable node; returns it with the next allocator state. -/
def pVar (idx : Nat) (s : Nat) : PExpr × Nat := (PExpr.var s idx, s + 1)

/-- Modelled from the spec (§4.1): `numeral(v)` — allocates a fresh
numeral node. -/
def pNum (v : Int) (s : Nat) : PExpr × Nat := (PExpr.num s v, s + 1)

/-- Modelled from the spec (§4.1): `constant(name)` — allocates a fresh
constant node. -/
def pConst (nm : String) (s : Nat) : PExpr × Nat := (PExpr.const s nm, s + 1)

/-- Modelled from the spec (§4.1): `app(exprs)` at the allocation
level — requires at least two elements, flattens an `App` head by
merging argument lists, and allocates exactly one fresh node; the
children stored are the very values passed in. -/
def pApp (es : List PExpr) (s : Nat) : Except ExprError PExpr × Nat :=
  if es.length < 2 then (Except.error ExprError.invalidArity, s)
  else
    match es with
    | [] => (Except.error ExprError.invalidArity, s)
    | e0 :: rest =>
      match e0 with
      | PExpr.app _ g xs => (Except.ok (PExpr.app s g (xs ++ rest)), s + 1)
      | f => (Except.ok (PExpr.app s f rest), s + 1)

/-- Modelled from the spec (§4.1): `get_num_args` on allocated nodes. -/
def pGetNumArgs : PExpr → Nat
  | PExpr.app _ _ xs => xs.length + 1
  | _ => 0

/-- Modelled from the spec (§4.1): `get_arg` on allocated nodes —
returns the stored spine element itself (function head at index 0),
without copying or rebuilding. -/
def pGetArg (e : PExpr) (i : Nat) : Except ExprError PExpr :=
  match e with
  | PExpr.app _ f xs =>
    if h : i < xs.length + 1 then
      match i with
      | 0 => Except.ok f
      | j + 1 => Except.ok (xs.get ⟨j, by omega⟩)
    else Except.error ExprError.indexOutOfRange
  | _ => Except.error ExprError.wrongKind

/-- Whether an allocated node is an `App` node. -/
def pIsApp : PExpr → Bool
  | PExpr.app _ _ _ => true
  | _ => false

/-! ### Reflexivity of structural equality -/

mutual
theorem structEq_refl : (e : Expr) → structEq e e = true
  | Expr.var _ => by simp [structEq]
  | Expr.const _ => by simp [structEq]
  | Expr.prop => by simp [structEq]
  | Expr.type => by simp [structEq]
  | Expr.num _ => by simp [structEq]
  | Expr.app f xs => by
    simp [structEq, structEq_refl f, structEqList_refl xs]
  | Expr.lam n d b => by
    simp [structEq, structEq_refl d, structEq_refl b]
  | Expr.pi n d b => by
    simp [structEq, structEq_refl d, structEq_refl b]
termination_by e => esize e
decreasing_by all_goals (simp only [esize, esizeList]; omega)

theorem structEqList_refl : (l : List Expr) → structEqList l l = true
  | [] => by simp [structEqList]
  | x :: xs => by
    simp [structEqList, structEq_refl x, structEqList_refl xs]
termination_by l => esizeList l
decreasing_by all_goals (simp only [esize, esizeList]; omega)
end

/-! ### Hash soundness: equal structure implies equal hash -/

theorem hashE_eq_of_structEq :
    ∀ a b : Expr, structEq a b = true → hashE a = hashE b := by
  refine structEq.induct
    (fun a b => structEq a b = true → hashE a = hashE b)
    (fun xs ys => structEqList xs ys = true →
      ∀ h0, hashList xs h0 = hashList ys h0)
    ?_ ?_ ?_ ?_ ?_ ?_ ?_ ?_ ?_ ?_ ?_ ?_
  · intro i j h
    simp [structEq] at h
    simp [hashE, h]
  · intro n m h
    simp [structEq] at h
    simp [hashE, h]
  · intro h; rfl
  · intro h; rfl
  · intro a b h
    simp [structEq] at h
    simp [hashE, h]
  · intro f xs g ys ihf ihl h
    simp [structEq] at h
    simp [hashE, ihf h.1]
    exact ihl h.2 _
  · intro nm d b nm1 e c ihd ihb h
    simp [structEq] at h
    simp [hashE, ihd h.1, ihb h.2]
  · intro nm d b nm1 e c ihd ihb h
    simp [structEq] at h
    simp [hashE, ihd h.1, ihb h.2]
  · intro t x h1 h2 h3 h4 h5 h6 h7 h8 hst
    exfalso
    cases t <;> cases x <;>
      first
        | exact h1 _ _ rfl rfl
        | exact h2 _ _ rfl rfl
        | exact h3 rfl rfl
        | exact h4 rfl rfl
        | exact h5 _ _ rfl rfl
        | exact h6 _ _ _ _ rfl rfl
        | exact h7 _ _ _ _ _ _ rfl rfl
        | exact h8 _ _ _ _ _ _ rfl rfl
        | simp [structEq] at hst
  · intro h h0; rfl
  · intro x xs y ys ih1 ih2 h h0
    simp [structEqList] at h
    simp [hashList, ih1 h.1]
    exact ih2 h.2 _
  · intro t x hn hc h
    exfalso
    cases t <;> cases x <;>
      first
        | exact hn rfl rfl
        | exact hc _ _ _ _ rfl rfl
        | simp [structEqList] at h

/-! ### The three depth strategies coincide -/

theorem depth1List_eq (l : List Expr) :
    ∀ m, depth1List l m = max m (maxSpine l) := by
  induction l with
  | nil => intro m; simp [depth1List, maxSpine]
  | cons a as ih =>
    intro m
    simp only [depth1List, maxSpine, ih]
    omega

theorem depth2_eq_depth1 : ∀ e, depth2 e = depth1 e := by
  refine depth2.induct (fun e => depth2 e = depth1 e)
    (fun l m => depth2List l m = depth1List l m)
    ?_ ?_ ?_ ?_ ?_ ?_ ?_ ?_ ?_ ?_
  · intro i; simp [depth2, depth1]
  · intro n; simp [depth2, depth1]
  · simp [depth2, depth1]
  · simp [depth2, depth1]
  · intro v; simp [depth2, depth1]
  · intro f xs ih
    simp [depth2, depth1, ih]
  · intro nm d b ihd ihb
    simp [depth2, depth1, ihd, ihb]
  · intro nm d b ihd ihb
    simp [depth2, depth1, ihd, ihb]
  · intro h
    simp [depth2List, depth1List]
  · intro x xs h ih1 ih2
    simp only [depth2List, depth1List]
    rw [ih2, ih1, depth1List_eq, depth1List_eq]
    omega

theorem maxDepths_append (l1 l2 : List (Expr × Nat)) :
    maxDepths (l1 ++ l2) = max (maxDepths l1) (maxDepths l2) := by
  induction l1 with
  | nil => simp [maxDepths]
  | cons p l ih =>
    obtain ⟨e, n⟩ := p
    rw [List.cons_append]
    simp only [maxDepths]
    rw [ih]
    omega

theorem maxDepths_reverse (l : List (Expr × Nat)) :
    maxDepths l.reverse = maxDepths l := by
  induction l with
  | nil => rfl
  | cons p l ih =>
    obtain ⟨e, n⟩ := p
    rw [List.reverse_cons, maxDepths_append]
    simp only [maxDepths, ih]
    omega

theorem maxDepths_map_spine (a : Expr) (as : List Expr) (c : Nat) :
    maxDepths (List.map (fun x => (x, c)) (a :: as)) = maxSpine (a :: as) + c := by
  induction as generalizing a with
  | nil => simp [maxDepths, maxSpine]
  | cons b bs ih =>
    have h := ih b
    simp only [List.map_cons, maxDepths, maxSpine] at h ⊢
    omega

theorem depth3Loop_eq :
    ∀ todo m, depth3Loop todo m = max m (maxDepths todo) := by
  refine depth3Loop.induct (fun todo m => depth3Loop todo m = max m (maxDepths todo))
    ?_ ?_ ?_ ?_ ?_ ?_ ?_ ?_ ?_
  · intro m
    simp [depth3Loop, maxDepths]
  · intro n todo m c i ih
    unfold_let c at ih
    simp only [depth3Loop, ih, maxDepths, depth1]
    omega
  · intro n todo m c s ih
    unfold_let c at ih
    simp only [depth3Loop, ih, maxDepths, depth1]
    omega
  · intro n todo m c ih
    unfold_let c at ih
    simp only [depth3Loop, ih, maxDepths, depth1]
    omega
  · intro n todo m c ih
    unfold_let c at ih
    simp only [depth3Loop, ih, maxDepths, depth1]
    omega
  · intro n todo m c v ih
    unfold_let c at ih
    simp only [depth3Loop, ih, maxDepths, depth1]
    omega
  · intro n todo m c f xs ih
    unfold_let c at ih
    simp only [depth3Loop]
    rw [ih, maxDepths_append, maxDepths_reverse, maxDepths_map_spine]
    simp only [maxDepths, maxSpine, depth1, depth1List_eq]
    omega
  · intro n todo m c nm d b ih
    unfold_let c at ih
    simp only [depth3Loop, ih, maxDepths, depth1]
    omega
  · intro n todo m c nm d b ih
    unfold_let c at ih
    simp only [depth3Loop, ih, maxDepths, depth1]
    omega

theorem depth3_eq_depth1 (e : Expr) : depth3 e = depth1 e := by
  rw [depth3, depth3Loop_eq]
  simp only [maxDepths]
  omega

/-! ### Depth of the test DAG and of a deep chain -/

theorem depth1_mkDag : ∀ n, depth1 (mkDag n) = n + 1 := by
  intro n
  induction n with
  | zero => simp [mkDag, depth1]
  | succ n ih =>
    simp only [mkDag, appCore, depth1, depth1List_eq, maxSpine, ih]
    omega

theorem depth1_mkChain : ∀ n, depth1 (mkChain n) = n + 1 := by
  intro n
  induction n with
  | zero => simp [mkChain, depth1]
  | succ n ih =>
    simp only [mkChain, appCore, depth1, depth1List_eq, maxSpine, ih]
    omega

/-! ### Flattening of nested application heads -/

theorem appCore_flatten (f a b : Expr) :
    appCore [appCore [f, a], b] = appCore [f, a, b] := by
  cases f <;> simp [appCore]

/-! ### Structural equality on allocated nodes -/

theorem pBeq_self (a : PExpr) : pBeq a a = true := by
  unfold pBeq
  simp [eqp]

theorem pBeqList_self (l : List PExpr) : pBeqList l l = true := by
  induction l with
  | nil => simp [pBeqList]
  | cons x xs ih => simp [pBeqList, pBeq_self, ih]

theorem pBeq_app_same_children (i j : Nat) (g : PExpr) (xs : List PExpr) :
    pBeq (PExpr.app i g xs) (PExpr.app j g xs) = true := by
  by_cases h : (i == j) = true
  · simp [pBeq, eqp, nodeId, h]
  · simp [pBeq, eqp, nodeId, h, pHash, erase, pBeq_self, pBeqList_self]

/-! ### The claims -/

/-- C1: application construction normalizes into a flat spine — for
every `f`, `a`, `b`, the results of `app([app([f,a]), b])` and
`app([f, a, b])` are structurally equal (`==`), have identical
`get_num_args`, and identical `get_arg` values at every index. -/
theorem c1_flattening (f a b fa e1 e2 : Expr)
    (h1 : app [f, a] = Except.ok fa)
    (h2 : app [fa, b] = Except.ok e1)
    (h3 : app [f, a, b] = Except.ok e2) :
    structEq e1 e2 = true ∧ getNumArgs e1 = getNumArgs e2 ∧
      ∀ i, getArg e1 i = getArg e2 i := by
  unfold app at h1 h2 h3
  rw [if_neg (by simp)] at h1 h2 h3
  injection h1 with h1
  injection h2 with h2
  injection h3 with h3
  subst h1
  subst h2
  subst h3
  rw [appCore_flatten]
  exact ⟨structEq_refl _, rfl, fun i => rfl⟩

/-- Witness for C1 at `f = var(0)`, `a = b = numeral(10)`. -/
theorem c1_flattening_witness :
    structEq (Expr.app (Expr.var 0) [Expr.num 10, Expr.num 10])
        (Expr.app (Expr.var 0) [Expr.num 10, Expr.num 10]) = true ∧
      getNumArgs (Expr.app (Expr.var 0) [Expr.num 10, Expr.num 10]) =
        getNumArgs (Expr.app (Expr.var 0) [Expr.num 10, Expr.num 10]) ∧
      ∀ i, getArg (Expr.app (Expr.var 0) [Expr.num 10, Expr.num 10]) i =
        getArg (Expr.app (Expr.var 0) [Expr.num 10, Expr.num 10]) i :=
  c1_flattening (Expr.var 0) (Expr.num 10) (Expr.num 10) _ _ _ rfl rfl rfl

/-- C2: the three depth strategies agree — for every term `e`,
`depth1 e = depth2 e` and `depth2 e = depth3 e`. -/
theorem c2_depth_strategies_agree (e : Expr) :
    depth1 e = depth2 e ∧ depth2 e = depth3 e := by
  rw [depth2_eq_depth1, depth3_eq_depth1]
  exact ⟨rfl, rfl⟩

/-- C3: identity and structural equality diverge on fresh
construction — building `app([f,a])` twice from the same `f`, `a` by
separate constructor calls yields `eqp = false` but `== = true`. -/
theorem c3_identity_vs_structural (f a : PExpr) (s s1 s2 : Nat) (e1 e2 : PExpr)
    (h1 : pApp [f, a] s = (Except.ok e1, s1))
    (h2 : pApp [f, a] s1 = (Except.ok e2, s2)) :
    eqp e1 e2 = false ∧ pBeq e1 e2 = true := by
  unfold pApp at h1 h2
  rw [if_neg (by simp)] at h1 h2
  cases f <;>
    (simp only [Prod.mk.injEq, Except.ok.injEq] at h1 h2
     obtain ⟨he1, hs1⟩ := h1
     obtain ⟨he2, hs2⟩ := h2
     subst he1
     subst he2
     subst hs1
     constructor
     · simp [eqp, nodeId]
     · exact pBeq_app_same_children _ _ _ _)

/-- Witness for C3, mirroring the test: `a = numeral(10)` allocated at
address 0, `f = var(0)` at address 1, then two `app({f,a})` calls. -/
theorem c3_identity_vs_structural_witness :
    eqp (PExpr.app 2 (PExpr.var 1 0) [PExpr.num 0 10])
        (PExpr.app 3 (PExpr.var 1 0) [PExpr.num 0 10]) = false ∧
      pBeq (PExpr.app 2 (PExpr.var 1 0) [PExpr.num 0 10])
        (PExpr.app 3 (PExpr.var 1 0) [PExpr.num 0 10]) = true :=
  c3_identity_vs_structural (PExpr.var 1 0) (PExpr.num 0 10) 2 3 4 _ _ rfl rfl

/-- C4: hash soundness — structurally equal terms have equal cached
structural hashes. -/
theorem c4_hash_soundness (a b : Expr) (h : structEq a b = true) :
    hashE a = hashE b :=
  hashE_eq_of_structEq a b h

/-- Witness for C4 on two independently written, structurally equal
lambda terms with different binder names. -/
theorem c4_hash_soundness_witness :
    structEq (Expr.lam "x" Expr.prop (Expr.var 0))
        (Expr.lam "y" Expr.prop (Expr.var 0)) = true ∧
      hashE (Expr.lam "x" Expr.prop (Expr.var 0)) =
        hashE (Expr.lam "y" Expr.prop (Expr.var 0)) :=
  ⟨by simp [structEq], c4_hash_soundness _ _ (by simp [structEq])⟩

/-- C5: alpha-invariance of binder names — `Lambda`/`Pi` structural
equality and hashing ignore the binder name, in general and on the
concrete test instance `lambda("x", prop(), var(0)) ==
lambda("y", prop(), var(0))`. -/
theorem c5_alpha_invariance (n1 n2 : String) (d b : Expr) :
    structEq (Expr.lam n1 d b) (Expr.lam n2 d b) = true ∧
      structEq (Expr.pi n1 d b) (Expr.pi n2 d b) = true ∧
      hashE (Expr.lam n1 d b) = hashE (Expr.lam n2 d b) ∧
      hashE (Expr.pi n1 d b) = hashE (Expr.pi n2 d b) ∧
      structEq (Expr.lam "x" Expr.prop (Expr.var 0))
        (Expr.lam "y" Expr.prop (Expr.var 0)) = true := by
  refine ⟨?_, ?_, ?_, ?_, ?_⟩
  · simp [structEq, structEq_refl]
  · simp [structEq, structEq_refl]
  · simp [hashE]
  · simp [hashE]
  · simp [structEq]

/-- C6: sharing scalability — two independently built depth-20 DAGs
compare structurally equal, and all three depth strategies report
nesting depth 21 on them. -/
theorem c6_sharing_scalability :
    structEq (mkDag 20) (mkDag 20) = true ∧
      depth1 (mkDag 20) = 21 ∧ depth2 (mkDag 20) = 21 ∧
      depth3 (mkDag 20) = 21 := by
  refine ⟨structEq_refl _, ?_, ?_, ?_⟩
  · have := depth1_mkDag 20
    omega
  · rw [depth2_eq_depth1]
    have := depth1_mkDag 20
    omega
  · rw [depth3_eq_depth1]
    have := depth1_mkDag 20
    omega

/-- C7: arity enforcement — `app(exprs)` fails with `InvalidArity`
exactly when fewer than two expressions are given; in particular
`app([x])` fails, and on success the first element is the function and
the rest are the arguments. -/
theorem c7_arity_enforcement :
    (∀ es : List Expr, app es = Except.error ExprError.invalidArity ↔
      es.length < 2) ∧
      app [Expr.var 0] = Except.error ExprError.invalidArity ∧
      (∀ (f : Expr) (rest : List Expr), rest ≠ [] → isApp f = false →
        app (f :: rest) = Except.ok (Expr.app f rest)) := by
  refine ⟨?_, ?_, ?_⟩
  · intro es
    by_cases h : es.length < 2 <;> simp [app, h]
  · simp [app]
  · intro f rest hne hf
    cases rest with
    | nil => exact absurd rfl hne
    | cons r rs =>
      cases f <;> simp [isApp] at hf <;> simp [app, appCore]

/-- Witness for C7: `app([var(0)])` fails with `InvalidArity`, and
`app([var(0), numeral(10)])` succeeds with function `var(0)`. -/
theorem c7_arity_enforcement_witness :
    app [Expr.var 0] = Except.error ExprError.invalidArity ∧
      app [Expr.var 0, Expr.num 10] =
        Except.ok (Expr.app (Expr.var 0) [Expr.num 10]) :=
  ⟨c7_arity_enforcement.2.1,
   c7_arity_enforcement.2.2 (Expr.var 0) [Expr.num 10] (by simp) rfl⟩

/-- C8: argument access bounds — on an `App` node, `get_arg` fails
with `IndexOutOfRange` exactly when the index reaches
`get_num_args`, and below the bound it returns the indexed element of
the flattened spine. -/
theorem c8_get_arg_bounds (f : Expr) (xs : List Expr) (i : Nat) :
    (getArg (Expr.app f xs) i = Except.error ExprError.indexOutOfRange ↔
      getNumArgs (Expr.app f xs) ≤ i) ∧
      (i < getNumArgs (Expr.app f xs) →
        ∃ e, getArg (Expr.app f xs) i = Except.ok e ∧
          (f :: xs)[i]? = some e) := by
  constructor
  · by_cases h : i < xs.length + 1
    · cases i with
      | zero => simp [getArg, getNumArgs, h]
      | succ j =>
        simp only [getArg, getNumArgs, dif_pos h]
        constructor
        · intro hcon
          exact absurd hcon (by simp)
        · intro hle
          omega
    · simp [getArg, getNumArgs, h]
      omega
  · intro hlt
    simp only [getNumArgs] at hlt
    cases i with
    | zero =>
      refine ⟨f, ?_, by simp⟩
      simp [getArg]
    | succ j =>
      refine ⟨xs.get ⟨j, by omega⟩, ?_, ?_⟩
      · simp only [getArg]
        rw [dif_pos hlt]
      · simp only [List.getElem?_cons_succ]
        rw [List.getElem?_eq_getElem (by omega)]
        simp

/-- Witness for C8 at `e = app([var(0), numeral(10)])`, `i = 1`. -/
theorem c8_get_arg_bounds_witness :
    1 < getNumArgs (Expr.app (Expr.var 0) [Expr.num 10]) ∧
      ∃ e, getArg (Expr.app (Expr.var 0) [Expr.num 10]) 1 = Except.ok e ∧
        (Expr.var 0 :: [Expr.num 10])[1]? = some e :=
  ⟨by simp [getNumArgs],
   (c8_get_arg_bounds (Expr.var 0) [Expr.num 10] 1).2 (by simp [getNumArgs])⟩

/-- C9: deep-term stack safety — the iterative worklist strategy
`depth3` is a total function (its worklist loop terminates on every
term, by the well-founded recursion it is defined with), and on a
right-nested chain of 10^5 applications it completes and returns the
correct depth. -/
theorem c9_worklist_deep_chain :
    (∀ n, depth3 (mkChain n) = n + 1) ∧
      depth3 (mkChain 100000) = 100001 := by
  have h : ∀ n, depth3 (mkChain n) = n + 1 := by
    intro n
    rw [depth3_eq_depth1]
    exact depth1_mkChain n
  refine ⟨h, ?_⟩
  have := h 100000
  omega

/-- C10: the flattened spine exposes the function head at index 0 —
for `e = app([f, a])` with `f` not itself an application,
`get_num_args(e) = 2`, and `get_arg` returns the very child objects
passed to the constructor (identity-equal, not copies). -/
theorem c10_spine_stores_children (f a : PExpr) (s s1 : Nat) (e : PExpr)
    (hf : pIsApp f = false)
    (h : pApp [f, a] s = (Except.ok e, s1)) :
    pGetNumArgs e = 2 ∧
      pGetArg e 0 = Except.ok f ∧ pGetArg e 1 = Except.ok a ∧
      (∃ g, pGetArg e 0 = Except.ok g ∧ eqp g f = true) ∧
      (∃ w, pGetArg e 1 = Except.ok w ∧ eqp w a = true) := by
  unfold pApp at h
  rw [if_neg (by simp)] at h
  cases f
  case app => simp [pIsApp] at hf
  all_goals
    simp only [Prod.mk.injEq, Except.ok.injEq] at h
  all_goals
    obtain ⟨he, hs⟩ := h
  all_goals
    subst he
  all_goals
    exact ⟨rfl, rfl, rfl, ⟨_, rfl, by simp [eqp]⟩, ⟨_, rfl, by simp [eqp]⟩⟩

/-- Witness for C10, mirroring the test: `f = var(0)` at address 1,
`a = numeral(10)` at address 0. -/
theorem c10_spine_stores_children_witness :
    pGetNumArgs (PExpr.app 2 (PExpr.var 1 0) [PExpr.num 0 10]) = 2 ∧
      pGetArg (PExpr.app 2 (PExpr.var 1 0) [PExpr.num 0 10]) 0 =
        Except.ok (PExpr.var 1 0) ∧
      pGetArg (PExpr.app 2 (PExpr.var 1 0) [PExpr.num 0 10]) 1 =
        Except.ok (PExpr.num 0 10) ∧
      (∃ g, pGetArg (PExpr.app 2 (PExpr.var 1 0) [PExpr.num 0 10]) 0 =
        Except.ok g ∧ eqp g (PExpr.var 1 0) = true) ∧
      (∃ w, pGetArg (PExpr.app 2 (PExpr.var 1 0) [PExpr.num 0 10]) 1 =
        Except.ok w ∧ eqp w (PExpr.num 0 10) = true) :=
  c10_spine_stores_children (PExpr.var 1 0) (PExpr.num 0 10) 2 3 _ rfl rfl

end KernelExpr
